import Mathlib

/-!
Verification of the kuksa.val.v2 C++ SDK protocol core (actuator provider
stream engine and client facade) against its natural-language specification.

The definitions below are a shallow embedding of the C++ sources
`sdk/cpp/src/provider.cpp`, `sdk/cpp/src/vss_client.cpp` and
`sdk/cpp/include/sdv/vss/types.hpp`.  Pure C++ functions become Lean
functions; the thread interleavings relevant to the temporal claims are
modelled as explicit small-step transition relations over system states.
C++ `float`/`double` payloads are carried opaquely as bit patterns (`Nat`);
no floating-point arithmetic is performed anywhere in the sources modelled
here, values are only copied between tagged unions.
-/

/-! ## Value model

`types.hpp` line 19:
`using Value = std::variant<bool, int32_t, uint32_t, int64_t, uint64_t, float, double, std::string>;`
-/

/-- The SDK value variant (`sdv::vss::Value`), eight alternatives. -/
inductive Value
  | bool_ (b : Bool)
  | int32 (i : Int)
  | uint32 (n : Nat)
  | int64 (i : Int)
  | uint64 (n : Nat)
  | float_ (bits : Nat)
  | double_ (bits : Nat)
  | string_ (s : String)
deriving DecidableEq

/-- The protobuf `kuksa.val.v2.Value` oneof: either no variant is set
(`unset`, the state of a default-constructed message) or exactly one of the
eight scalar wire kinds. -/
inductive ProtoValue
  | unset
  | bool_ (b : Bool)
  | int32 (i : Int)
  | uint32 (n : Nat)
  | int64 (i : Int)
  | uint64 (n : Nat)
  | float_ (bits : Nat)
  | double_ (bits : Nat)
  | string_ (s : String)
deriving DecidableEq

/-- The eight wire kinds of §6 of the specification. -/
inductive WireKind
  | bool_ | int32 | uint32 | int64 | uint64 | float_ | double_ | string_
deriving DecidableEq

/-- The explicit tag carried by an outbound wire value, `none` when no
variant of the oneof is set. -/
def ProtoValue.tag : ProtoValue → Option WireKind
  | .unset => none
  | .bool_ _ => some .bool_
  | .int32 _ => some .int32
  | .uint32 _ => some .uint32
  | .int64 _ => some .int64
  | .uint64 _ => some .uint64
  | .float_ _ => some .float_
  | .double_ _ => some .double_
  | .string_ _ => some .string_

/-- The wire kind that corresponds to each variant of the SDK value union. -/
def Value.wireKind : Value → WireKind
  | .bool_ _ => .bool_
  | .int32 _ => .int32
  | .uint32 _ => .uint32
  | .int64 _ => .int64
  | .uint64 _ => .uint64
  | .float_ _ => .float_
  | .double_ _ => .double_
  | .string_ _ => .string_

namespace ActuatorProvider

/-- `Impl::convert_to_proto` (provider.cpp lines 521-540).  The
`std::visit` branches on `bool`, `int32_t`, `float`, `double` and
`std::string` only; for the `uint32_t`, `int64_t` and `uint64_t`
alternatives of the variant no branch of the `if constexpr` chain matches,
no setter is called, and the default-constructed proto value is returned
with no variant of its oneof set. -/
def convert_to_proto : Value → ProtoValue
  | .bool_ b => .bool_ b
  | .int32 i => .int32 i
  | .float_ f => .float_ f
  | .double_ d => .double_ d
  | .string_ s => .string_ s
  | .uint32 _ => .unset
  | .int64 _ => .unset
  | .uint64 _ => .unset

/-- `Impl::convert_from_proto` (provider.cpp lines 506-519): the decoder
checks, in order, `has_bool_`, `has_int32`, `has_float_`, `has_double_`,
`has_string`; any other wire value falls through to `return false;`, the
`bool` variant holding `false`. -/
def convert_from_proto : ProtoValue → Value
  | .bool_ b => .bool_ b
  | .int32 i => .int32 i
  | .float_ f => .float_ f
  | .double_ d => .double_ d
  | .string_ s => .string_ s
  | _ => .bool_ false

/-- The wire variants the decoder of `convert_from_proto` recognizes. -/
def recognized_by_decoder : ProtoValue → Bool
  | .bool_ _ => true
  | .int32 _ => true
  | .float_ _ => true
  | .double_ _ => true
  | .string_ _ => true
  | _ => false

end ActuatorProvider

/-! ## Connection liveness probe

`ActuatorProvider::Impl::connect` (provider.cpp lines 52-87) and
`VSSClient::Impl::connect` (vss_client.cpp lines 52-90).  Both first wait
up to two seconds for the channel to become reachable, then issue one unary
probe (`ListMetadata` for the provider, `GetValue` for the client) and fail
only when the probe status is not OK and its code is `UNAVAILABLE` or
`DEADLINE_EXCEEDED`. -/

/-- gRPC status codes. -/
inductive GrpcCode
  | ok | cancelled | unknown | invalidArgument | deadlineExceeded | notFound
  | alreadyExists | permissionDenied | resourceExhausted | failedPrecondition
  | aborted | outOfRange | unimplemented | internal | unavailable | dataLoss
  | unauthenticated
deriving DecidableEq

/-- `grpc::Status::ok()`: the code is OK. -/
def statusOk (c : GrpcCode) : Bool := c = GrpcCode.ok

namespace ActuatorProvider

/-- `Impl::connect` (provider.cpp lines 52-87), as a function of whether
the channel became reachable within the bounded wait and of the status of
the `ListMetadata` probe; returns the value of `connected_`/the return
value (they coincide on every path). -/
def connect (reachable : Bool) (probe : GrpcCode) : Bool :=
  if !reachable then false
  else if !statusOk probe &&
      (probe = GrpcCode.unavailable || probe = GrpcCode.deadlineExceeded) then false
  else true

end ActuatorProvider

namespace VSSClient

/-- `VSSClient::Impl::connect` (vss_client.cpp lines 52-90), same shape as
the provider probe but against the `GetValue("Vehicle.Speed")` call. -/
def connect (reachable : Bool) (probe : GrpcCode) : Bool :=
  if !reachable then false
  else if !statusOk probe &&
      (probe = GrpcCode.unavailable || probe = GrpcCode.deadlineExceeded) then false
  else true

end VSSClient

/-! ## Signal catalog -/

/-- The provider's bidirectional path/id maps (`id_to_path_`,
`path_to_id_`), modelled as association lists. -/
structure Catalog where
  id_to_path : List (Int × String)
  path_to_id : List (String × Int)

namespace ActuatorProvider

/-- `Impl::find_path_for_id` (provider.cpp lines 494-498): map lookup,
empty string when absent. -/
def find_path_for_id (cat : Catalog) (signal_id : Int) : String :=
  match cat.id_to_path.lookup signal_id with
  | some p => p
  | none => ""

/-- `Impl::get_signal_id_for_path` (provider.cpp lines 500-504): map
lookup, `-1` when absent. -/
def get_signal_id_for_path (cat : Catalog) (path : String) : Int :=
  match cat.path_to_id.lookup path with
  | some i => i
  | none => -1

end ActuatorProvider

/-! ## Actuation request decoding and dispatch -/

/-- The `kuksa.val.v2.SignalID` message: a oneof of numeric id and path. -/
structure ProtoSignalID where
  id : Option Int
  path : Option String
deriving DecidableEq

/-- One entry of a `BatchActuateStreamRequest`. -/
structure ActuateRequestMsg where
  signal_id : ProtoSignalID
  value : ProtoValue
deriving DecidableEq

/-- `sdv::vss::ActuationRequest` (provider.hpp lines 22-26). -/
structure ActuationRequest where
  path : String
  signal_id : Int
  value : Value
deriving DecidableEq

namespace ActuatorProvider

/-- Signal-id resolution of `Impl::handle_actuation_request`
(provider.cpp lines 371-378): prefer the id embedded in the frame, fall
back to the path lookup, and keep the initial value `0` when the frame
carries neither. -/
def resolve_signal_id (cat : Catalog) (sid : ProtoSignalID) : Int :=
  match sid.id with
  | some i => i
  | none =>
    match sid.path with
    | some p => get_signal_id_for_path cat p
    | none => 0

/-- `Impl::handle_actuation_request` (provider.cpp lines 361-410) as a
pure function of the batch: for each entry, resolve the signal id and its
path; an empty path (unknown id) skips the entry; otherwise the
acknowledgement for the id is written (first component, in order) and,
when a callback is registered, the decoded `ActuationRequest` is enqueued
(second component, in order). -/
def handle_actuation_request (cat : Catalog) (cbSet : Bool) :
    List ActuateRequestMsg → List Int × List ActuationRequest
  | [] => ([], [])
  | r :: rest =>
    let sid := resolve_signal_id cat r.signal_id
    let path := find_path_for_id cat sid
    let tail := handle_actuation_request cat cbSet rest
    if path = "" then tail
    else
      (sid :: tail.1,
       if cbSet then
         ({ path := path, signal_id := sid, value := convert_from_proto r.value } : ActuationRequest) :: tail.2
       else tail.2)

end ActuatorProvider

/-! ## publish_actual template specializations

provider.cpp lines 656-696.  The `long`, `unsigned int` and
`unsigned long` specializations wrap their argument with
`static_cast<int32_t>` before constructing the variant, so the queued
value is always the `int32` alternative. -/

/-- `static_cast<int32_t>` on an integer of any width: reduction modulo
2^32 reinterpreted into [-2^31, 2^31). -/
def static_cast_int32 (v : Int) : Int := (v + 2 ^ 31) % 2 ^ 32 - 2 ^ 31

/-- An outbound publish queue entry (`Impl::PublishRequest`,
provider.cpp lines 220-223). -/
structure PublishRequest where
  path : String
  value : Value
deriving DecidableEq

namespace ActuatorProvider

/-- `Impl::publish_actual_value` (provider.cpp lines 156-167): append the
request to the publish queue (the notified condition variable is part of
the concurrency model, not of the queue contents). -/
def publish_actual_value (q : List PublishRequest) (path : String) (v : Value) :
    List PublishRequest :=
  q ++ [{ path := path, value := v }]

/-- `publish_actual<long>` (provider.cpp lines 683-686). -/
def publish_actual_long (q : List PublishRequest) (path : String) (v : Int) :
    List PublishRequest :=
  publish_actual_value q path (Value.int32 (static_cast_int32 v))

/-- `publish_actual<unsigned int>` (provider.cpp lines 688-691). -/
def publish_actual_uint (q : List PublishRequest) (path : String) (v : Nat) :
    List PublishRequest :=
  publish_actual_value q path (Value.int32 (static_cast_int32 (v : Int)))

/-- `publish_actual<unsigned long>` (provider.cpp lines 693-696). -/
def publish_actual_ulong (q : List PublishRequest) (path : String) (v : Nat) :
    List PublishRequest :=
  publish_actual_value q path (Value.int32 (static_cast_int32 (v : Int)))

end ActuatorProvider

/-! ## stop() -/

/-- The engine state observed by `Impl::stop` (provider.cpp lines
195-217): the running flag, how many broadcast wakeups each condition
variable has received, and whether the two threads started by `start()`
have been joined. -/
structure StopState where
  running : Bool
  publishNotifyAllCount : Nat
  actuationNotifyAllCount : Nat
  actuationWorkerJoined : Bool
  streamThreadJoined : Bool
deriving DecidableEq

namespace ActuatorProvider

/-- `Impl::stop` (provider.cpp lines 195-217): an early return when the
running flag is already false; otherwise flip the flag, broadcast on both
condition variables, and join the actuation worker and the stream
thread. -/
def stop (s : StopState) : StopState :=
  if !s.running then s
  else
    { running := false
      publishNotifyAllCount := s.publishNotifyAllCount + 1
      actuationNotifyAllCount := s.actuationNotifyAllCount + 1
      actuationWorkerJoined := true
      streamThreadJoined := true }

end ActuatorProvider

/-! ## start() and the handshake in provider_stream_loop -/

/-- State consulted and written by `Impl::start` (provider.cpp lines
169-193). -/
structure EngineState where
  connected : Bool
  running : Bool
  actuationWorkerSpawned : Bool
  streamThreadSpawned : Bool
deriving DecidableEq

/-- Outcome of the five-second wait on the one-shot confirmation future in
`provider_stream_loop`: the wait timed out, the receive loop resolved the
promise to `false` (stream ended before confirmation), or it resolved it
to `true` (ownership confirmed). -/
inductive ConfirmOutcome
  | timeout
  | resolvedFalse
  | resolvedTrue
deriving DecidableEq

namespace ActuatorProvider

/-- `Impl::start` (provider.cpp lines 169-193).  The C++ function has
return type `void`: it early-returns when already running or not
connected, otherwise sets the running flag and spawns the actuation worker
and the stream thread, and in every case hands `()` back to its caller
immediately, before any handshake outcome exists. -/
def start (s : EngineState) : EngineState × Unit :=
  if s.running then (s, ())
  else if !s.connected then (s, ())
  else ({ s with running := true, actuationWorkerSpawned := true, streamThreadSpawned := true }, ())

/-- What the caller of `start()` receives, as a function of the eventual
handshake outcome: the C++ `start()` returns `void` before the stream
thread resolves the handshake, so its return value cannot depend on the
outcome. -/
def start_return (s : EngineState) (outcome : ConfirmOutcome) : Unit :=
  match outcome with
  | _ => (start s).2

/-- The observable result of one run of `Impl::provider_stream_loop`
(provider.cpp lines 225-298) up to the resolution of the ownership
handshake. -/
structure StreamLoopResult where
  running : Bool
  publishWaitersWoken : Bool
  actuationWaitersWoken : Bool
  readThreadJoined : Bool
  writeThreadJoined : Bool
  streamingConfirmed : Bool
deriving DecidableEq

/-- `Impl::provider_stream_loop` (provider.cpp lines 225-298) as a
function of whether the stream opened, whether the claim write succeeded,
and the handshake outcome.  A failed open returns before any thread is
spawned; a failed write, a timeout of the five-second wait, or a `false`
resolution each flip the running flag off, broadcast on both condition
variables, join the read and write threads and return; a `true` resolution
proceeds to streaming. -/
def provider_stream_loop (streamOpened writeOk : Bool) (outcome : ConfirmOutcome) :
    StreamLoopResult :=
  if !streamOpened then
    { running := false, publishWaitersWoken := false, actuationWaitersWoken := false
      readThreadJoined := false, writeThreadJoined := false, streamingConfirmed := false }
  else if !writeOk then
    { running := false, publishWaitersWoken := true, actuationWaitersWoken := true
      readThreadJoined := true, writeThreadJoined := true, streamingConfirmed := false }
  else
    match outcome with
    | .timeout =>
      { running := false, publishWaitersWoken := true, actuationWaitersWoken := true
        readThreadJoined := true, writeThreadJoined := true, streamingConfirmed := false }
    | .resolvedFalse =>
      { running := false, publishWaitersWoken := true, actuationWaitersWoken := true
        readThreadJoined := true, writeThreadJoined := true, streamingConfirmed := false }
    | .resolvedTrue =>
      { running := true, publishWaitersWoken := false, actuationWaitersWoken := false
        readThreadJoined := true, writeThreadJoined := true, streamingConfirmed := true }

end ActuatorProvider

/-! ## The one-shot promise and the receive loop -/

/-- `std::future_error` raised by `std::promise::set_value` on an already
satisfied promise. -/
inductive FutureErr
  | promiseAlreadySatisfied
deriving DecidableEq

/-- `std::promise<bool>::set_value`: resolves an unset promise, raises
`std::future_error` when it already holds a value. -/
def promise_set (p : Option Bool) (v : Bool) : Except FutureErr (Option Bool) :=
  match p with
  | none => Except.ok (some v)
  | some _ => Except.error FutureErr.promiseAlreadySatisfied

/-- The frame kinds read by `Impl::receive_loop` (provider.cpp lines
323-359). -/
inductive InFrame
  | provideResp
  | actuateBatch (b : List ActuateRequestMsg)
  | publishResp
  | other
deriving DecidableEq

namespace ActuatorProvider

/-- The promise-resolution behaviour of `Impl::receive_loop`
(provider.cpp lines 323-359) over the sequence of frames read from the
stream.  Inside the loop, an ownership-confirmation frame calls
`set_value(true)` with no surrounding try/catch, so a raised
`std::future_error` escapes the loop; after the loop, `set_value(false)`
is wrapped in a try/catch whose handler ignores `std::future_error`.  The
result is the final promise state, or the error that escaped. -/
def receive_loop (p : Option Bool) : List InFrame → Except FutureErr (Option Bool)
  | [] =>
    match promise_set p false with
    | Except.ok p' => Except.ok p'
    | Except.error _ => Except.ok p
  | InFrame.provideResp :: rest =>
    match promise_set p true with
    | Except.ok p' => receive_loop p' rest
    | Except.error e => Except.error e
  | _ :: rest => receive_loop p rest

end ActuatorProvider

/-! # Claim theorems (C1, C3, C5, C6, C7, C9, C10) -/

/-- C5 counterexample: the claim that every variant of the eight-way value
union is converted to a wire value tagged with its corresponding wire kind
fails at the concrete input `Value.uint32 7`: `convert_to_proto` leaves the
oneof unset, so the outbound tag is `none`, not `some WireKind.uint32`. -/
theorem convert_to_proto_uint32_untagged :
    ¬ ((ActuatorProvider.convert_to_proto (Value.uint32 7)).tag
        = some ((Value.uint32 7).wireKind)) := by
  decide

/-- C5 (amended): `convert_to_proto` tags the bool, int32, float, double
and string variants with exactly their corresponding wire kind, copying
the payload with no conversion between numeric variants; for the uint32,
int64 and uint64 variants no visitor branch matches and the outbound wire
value is left with no variant set (tag `none`). -/
theorem convert_to_proto_tags :
    (∀ b, ActuatorProvider.convert_to_proto (Value.bool_ b) = ProtoValue.bool_ b) ∧
    (∀ i, ActuatorProvider.convert_to_proto (Value.int32 i) = ProtoValue.int32 i) ∧
    (∀ f, ActuatorProvider.convert_to_proto (Value.float_ f) = ProtoValue.float_ f) ∧
    (∀ d, ActuatorProvider.convert_to_proto (Value.double_ d) = ProtoValue.double_ d) ∧
    (∀ s, ActuatorProvider.convert_to_proto (Value.string_ s) = ProtoValue.string_ s) ∧
    (∀ n, ActuatorProvider.convert_to_proto (Value.uint32 n) = ProtoValue.unset) ∧
    (∀ i, ActuatorProvider.convert_to_proto (Value.int64 i) = ProtoValue.unset) ∧
    (∀ n, ActuatorProvider.convert_to_proto (Value.uint64 n) = ProtoValue.unset) := by
  refine ⟨?_, ?_, ?_, ?_, ?_, ?_, ?_, ?_⟩ <;> intro x <;> rfl

/-- C6: a wire value carrying none of the decoder's recognized variants
decodes to the fallback `bool false` rather than failing, and an actuation
entry with such a value and a known signal id still proceeds: its
acknowledgement is emitted and the enqueued request carries the fallback
value. -/
theorem decode_fallback_proceeds (cat : Catalog) (r : ActuateRequestMsg)
    (rest : List ActuateRequestMsg)
    (hunrec : ActuatorProvider.recognized_by_decoder r.value = false)
    (hknown : ActuatorProvider.find_path_for_id cat
        (ActuatorProvider.resolve_signal_id cat r.signal_id) ≠ "") :
    ActuatorProvider.convert_from_proto r.value = Value.bool_ false ∧
    ActuatorProvider.handle_actuation_request cat true (r :: rest) =
      ((ActuatorProvider.resolve_signal_id cat r.signal_id) ::
          (ActuatorProvider.handle_actuation_request cat true rest).1,
        ({ path := ActuatorProvider.find_path_for_id cat
              (ActuatorProvider.resolve_signal_id cat r.signal_id),
           signal_id := ActuatorProvider.resolve_signal_id cat r.signal_id,
           value := Value.bool_ false } : ActuationRequest) ::
          (ActuatorProvider.handle_actuation_request cat true rest).2) := by
  have hdec : ActuatorProvider.convert_from_proto r.value = Value.bool_ false := by
    cases hv : r.value <;> simp [ActuatorProvider.convert_from_proto] <;>
      simp [hv, ActuatorProvider.recognized_by_decoder] at hunrec
  refine ⟨hdec, ?_⟩
  simp only [ActuatorProvider.handle_actuation_request, hdec]
  rw [if_neg hknown]
  simp

/-- C6 witness: a batch entry whose value is wire-tagged `uint64` (not
recognized by the decoder) and whose embedded id 5 is in the catalog is
acknowledged and enqueued with the fallback value `bool false`. -/
theorem decode_fallback_proceeds_witness :
    ActuatorProvider.convert_from_proto
        (ActuateRequestMsg.mk (ProtoSignalID.mk (some 5) none) (ProtoValue.uint64 3)).value
      = Value.bool_ false ∧
    ActuatorProvider.handle_actuation_request
        (Catalog.mk [(5, "Vehicle.A")] [("Vehicle.A", 5)]) true
        [ActuateRequestMsg.mk (ProtoSignalID.mk (some 5) none) (ProtoValue.uint64 3)] =
      ([5], [ActuationRequest.mk "Vehicle.A" 5 (Value.bool_ false)]) := by
  have h := decode_fallback_proceeds
    (Catalog.mk [(5, "Vehicle.A")] [("Vehicle.A", 5)])
    (ActuateRequestMsg.mk (ProtoSignalID.mk (some 5) none) (ProtoValue.uint64 3))
    [] (by decide) (by decide)
  exact ⟨h.1, by rw [h.2]; decide⟩

/-- C7: both `connect` probes fail exactly on transport-layer failure —
the channel unreachable within the bounded wait, or the probe call ending
with status `UNAVAILABLE` or `DEADLINE_EXCEEDED`; every other probe
status, the application-level `NOT_FOUND` included, counts as proof of
liveness and `connect` returns true. -/
theorem connect_fails_iff_transport_failure (reachable : Bool) (probe : GrpcCode) :
    (ActuatorProvider.connect reachable probe = false ↔
      (reachable = false ∨ probe = GrpcCode.unavailable ∨
        probe = GrpcCode.deadlineExceeded)) ∧
    (VSSClient.connect reachable probe = false ↔
      (reachable = false ∨ probe = GrpcCode.unavailable ∨
        probe = GrpcCode.deadlineExceeded)) := by
  cases reachable <;> cases probe <;>
    simp [ActuatorProvider.connect, VSSClient.connect, statusOk]

/-- C7 witness: with a reachable channel, a probe answered with the
application-level error `NOT_FOUND` yields a successful `connect` for both
the provider and the client, while `UNAVAILABLE` yields failure. -/
theorem connect_fails_iff_transport_failure_witness :
    ActuatorProvider.connect true GrpcCode.notFound = true ∧
    VSSClient.connect true GrpcCode.notFound = true ∧
    ActuatorProvider.connect true GrpcCode.unavailable = false := by
  have h1 := (connect_fails_iff_transport_failure true GrpcCode.notFound).1
  have h2 := (connect_fails_iff_transport_failure true GrpcCode.notFound).2
  have h3 := (connect_fails_iff_transport_failure true GrpcCode.unavailable).1
  refine ⟨?_, ?_, ?_⟩
  · cases hc : ActuatorProvider.connect true GrpcCode.notFound
    · rcases h1.mp hc with h | h | h <;> simp at h
    · rfl
  · cases hc : VSSClient.connect true GrpcCode.notFound
    · rcases h2.mp hc with h | h | h <;> simp at h
    · rfl
  · exact h3.mpr (Or.inr (Or.inl rfl))

/-- C9: `stop()` is idempotent — after one `stop()` the running flag is
off, and a second `stop()` in succession observes the engine not running,
performs no further broadcast or join (it is the identity, so no duplicate
cleanup), and `stop (stop s)` equals `stop s`. -/
theorem stop_idempotent (s : StopState) :
    (ActuatorProvider.stop s).running = false ∧
    ActuatorProvider.stop (ActuatorProvider.stop s) = ActuatorProvider.stop s ∧
    (s.running = false → ActuatorProvider.stop s = s) := by
  cases h : s.running <;>
    simp [ActuatorProvider.stop, h]

/-- C9 witness: stopping a running engine once flips the flag off, and the
second stop changes nothing. -/
theorem stop_idempotent_witness :
    (ActuatorProvider.stop (StopState.mk true 0 0 false false)).running = false ∧
    ActuatorProvider.stop (ActuatorProvider.stop (StopState.mk true 0 0 false false)) =
      ActuatorProvider.stop (StopState.mk true 0 0 false false) := by
  have h := stop_idempotent (StopState.mk true 0 0 false false)
  exact ⟨h.1, h.2.1⟩

/-- C1 counterexample: `start()` cannot return success exactly when the
confirmation arrives and failure otherwise, because the C++ `start()` has
return type `void` and returns before the handshake resolves: its return
value in a run whose handshake confirms equals its return value in a run
whose handshake times out, and the return type `Unit` does not even
contain two distinct values to encode success and failure. -/
theorem start_return_independent_of_outcome :
    ActuatorProvider.start_return
        (EngineState.mk true false false false) ConfirmOutcome.resolvedTrue =
      ActuatorProvider.start_return
        (EngineState.mk true false false false) ConfirmOutcome.timeout ∧
    ¬ ∃ success failure : Unit, success ≠ failure := by
  constructor
  · rfl
  · rintro ⟨⟨⟩, ⟨⟩, h⟩
    exact h rfl

/-- C1 (amended): `start()` returns `void` to its caller immediately after
spawning the worker threads; the five-second confirmation wait runs on the
stream thread, and when the handshake does not confirm — the stream fails
to open, the claim write fails, the wait times out, or the one-shot
resolves to `false` — `provider_stream_loop` flips the running flag off,
does not reach the streaming state, and (whenever the read and write
threads were spawned, i.e. the stream opened) wakes all queue waiters and
joins both threads. -/
theorem start_handshake_failure_cleanup (s : EngineState)
    (streamOpened writeOk : Bool) (outcome : ConfirmOutcome)
    (hfail : streamOpened = false ∨ writeOk = false ∨
      outcome ≠ ConfirmOutcome.resolvedTrue) :
    (ActuatorProvider.start s).2 = () ∧
    (ActuatorProvider.provider_stream_loop streamOpened writeOk outcome).running = false ∧
    (ActuatorProvider.provider_stream_loop streamOpened writeOk outcome).streamingConfirmed
      = false ∧
    (streamOpened = true →
      (ActuatorProvider.provider_stream_loop streamOpened writeOk outcome).readThreadJoined
          = true ∧
      (ActuatorProvider.provider_stream_loop streamOpened writeOk outcome).writeThreadJoined
          = true ∧
      (writeOk = false ∨ outcome ≠ ConfirmOutcome.resolvedTrue →
        (ActuatorProvider.provider_stream_loop streamOpened writeOk
            outcome).publishWaitersWoken = true ∧
        (ActuatorProvider.provider_stream_loop streamOpened writeOk
            outcome).actuationWaitersWoken = true)) := by
  refine ⟨rfl, ?_⟩
  cases streamOpened <;> cases writeOk <;> cases outcome <;>
    simp [ActuatorProvider.provider_stream_loop] at hfail ⊢

/-- C1 amended witness: a run whose stream opens and whose claim write
succeeds but whose five-second wait times out ends with the running flag
off, both queue waiters woken, and the read and write threads joined. -/
theorem start_handshake_failure_cleanup_witness :
    (ActuatorProvider.start (EngineState.mk true false false false)).2 = () ∧
    (ActuatorProvider.provider_stream_loop true true ConfirmOutcome.timeout).running
      = false ∧
    (ActuatorProvider.provider_stream_loop true true
        ConfirmOutcome.timeout).streamingConfirmed = false := by
  have h := start_handshake_failure_cleanup (EngineState.mk true false false false)
    true true ConfirmOutcome.timeout (Or.inr (Or.inr (by decide)))
  exact ⟨h.1, h.2.1, h.2.2.1⟩

/-- C3: the claim that a second ownership-confirmation frame is silently
ignored is right about the intent (the post-loop resolution is guarded by
a try/catch that ignores `std::future_error`, and a single confirmation
followed by stream end is indeed handled silently), but the in-loop
`set_value(true)` has no such guard: on the failing input of two
confirmation frames the second resolution raises `std::future_error`,
which escapes the receive loop uncaught. -/
theorem receive_loop_double_confirmation_throws :
    ActuatorProvider.receive_loop none [InFrame.provideResp, InFrame.provideResp] =
      Except.error FutureErr.promiseAlreadySatisfied ∧
    ActuatorProvider.receive_loop none [InFrame.provideResp] =
      Except.ok (some true) ∧
    ActuatorProvider.receive_loop none [] = Except.ok (some false) := by
  refine ⟨rfl, rfl, rfl⟩

/-- C10: the `long`, `unsigned int` and `unsigned long` specializations of
`publish_actual` publish the `int32` variant holding the
`static_cast<int32_t>` of the argument; for every argument outside the
int32 range the published value is the truncation modulo 2^32
reinterpreted as signed — congruent to the argument modulo 2^32, inside
the int32 range, and different from the original value. -/
theorem publish_actual_narrowing (q : List PublishRequest) (path : String)
    (a : Int) (b : Nat)
    (ha : a < -(2 ^ 31) ∨ 2 ^ 31 ≤ a) (hb : 2 ^ 31 ≤ b) :
    ActuatorProvider.publish_actual_long q path a =
      q ++ [PublishRequest.mk path (Value.int32 (static_cast_int32 a))] ∧
    ActuatorProvider.publish_actual_uint q path b =
      q ++ [PublishRequest.mk path (Value.int32 (static_cast_int32 ((b : Int))))] ∧
    ActuatorProvider.publish_actual_ulong q path b =
      q ++ [PublishRequest.mk path (Value.int32 (static_cast_int32 ((b : Int))))] ∧
    (static_cast_int32 a - a) % 2 ^ 32 = 0 ∧
    (static_cast_int32 ((b : Int)) - (b : Int)) % 2 ^ 32 = 0 ∧
    (-(2 ^ 31) ≤ static_cast_int32 a ∧ static_cast_int32 a < 2 ^ 31) ∧
    (-(2 ^ 31) ≤ static_cast_int32 ((b : Int)) ∧
      static_cast_int32 ((b : Int)) < 2 ^ 31) ∧
    static_cast_int32 a ≠ a ∧
    static_cast_int32 ((b : Int)) ≠ (b : Int) := by
  have hmod : ∀ v : Int, (static_cast_int32 v - v) % 2 ^ 32 = 0 := by
    intro v
    have : static_cast_int32 v - v = (v + 2 ^ 31) % 2 ^ 32 - (v + 2 ^ 31) := by
      simp [static_cast_int32]; ring
    rw [this, Int.sub_emod, Int.emod_emod_of_dvd _ dvd_rfl, sub_self, Int.zero_emod]
  have hrange : ∀ v : Int, -(2 ^ 31) ≤ static_cast_int32 v ∧ static_cast_int32 v < 2 ^ 31 := by
    intro v
    have hpos : (0 : Int) < 2 ^ 32 := by positivity
    have h1 : 0 ≤ (v + 2 ^ 31) % 2 ^ 32 := Int.emod_nonneg _ (by positivity)
    have h2 : (v + 2 ^ 31) % 2 ^ 32 < 2 ^ 32 := Int.emod_lt_of_pos _ hpos
    constructor
    · simp only [static_cast_int32]; omega
    · simp only [static_cast_int32]; omega
  refine ⟨rfl, rfl, rfl, hmod a, hmod ((b : Int)), hrange a, hrange ((b : Int)), ?_, ?_⟩
  · intro h
    rcases ha with h' | h'
    · have := (hrange a).1; omega
    · have := (hrange a).2; omega
  · intro h
    have := (hrange ((b : Int))).2
    omega

/-- C10 witness: publishing `2^31` as `long` queues the int32 variant
holding `-2^31`, and publishing `2^32 + 5` as `unsigned long` queues the
int32 variant holding `5`. -/
theorem publish_actual_narrowing_witness :
    ActuatorProvider.publish_actual_long [] "Vehicle.A" (2 ^ 31) =
      [PublishRequest.mk "Vehicle.A" (Value.int32 (static_cast_int32 (2 ^ 31)))] ∧
    static_cast_int32 (2 ^ 31) = -(2 ^ 31) ∧
    ActuatorProvider.publish_actual_ulong [] "Vehicle.A" (2 ^ 32 + 5) =
      [PublishRequest.mk "Vehicle.A"
        (Value.int32 (static_cast_int32 (((2 ^ 32 + 5 : Nat) : Int))))] ∧
    static_cast_int32 (((2 ^ 32 + 5 : Nat) : Int)) = 5 := by
  have h := publish_actual_narrowing [] "Vehicle.A" (2 ^ 31) (2 ^ 32 + 5)
    (Or.inr (by norm_num)) (by norm_num)
  exact ⟨h.1, by decide, h.2.2.1, by decide⟩

/-! ## Interleaving model of the actuation pipeline (C2, C4)

provider.cpp: `receive_loop` (323-359) handles each command of a batch by
writing the acknowledgement frame (`send_actuation_ack`, 412-423) and then
pushing the decoded request onto the actuation queue
(`queue_actuation_request`, 543-547); the single `actuation_worker` thread
(550-576) pops the queue FIFO and runs the user callback to completion
before popping again.  The two threads interleave arbitrarily; the model
below is a small-step transition system over their joint state, recording
the observable events. -/

/-- Observable events of the actuation pipeline, commands identified by
arrival position: an acknowledgement frame written to the stream, and the
begin and end of the user callback run by the actuation worker. -/
inductive PEv
  | ack (i : Nat)
  | cbStart (i : Nat)
  | cbEnd (i : Nat)
deriving DecidableEq

/-- An inbound actuation command together with its arrival position. -/
structure Cmd where
  idx : Nat
  msg : ActuateRequestMsg
deriving DecidableEq

/-- Joint state of the receive thread and the actuation worker: commands
not yet handled by the receive loop (in arrival order), the command whose
acknowledgement has been written but which is not yet enqueued (the
receive thread between `send_actuation_ack` and `queue_actuation_request`),
the FIFO actuation queue, the command whose callback the worker is
currently running, and the event trace so far. -/
structure PSys where
  pending : List Cmd
  ackedPend : Option Nat
  queue : List Nat
  worker : Option Nat
  trace : List PEv
deriving DecidableEq

namespace ActuatorProvider

/-- One interleaved step of the receive thread or the actuation worker.
`recvSkip`: the signal id of the next command is unknown, it is logged and
dropped with no ack (provider.cpp 383-386).  `recvAck`: the id is known,
the acknowledgement is written under the stream write lock (395).
`recvEnq`/`recvDrop`: the acked command is enqueued when a callback is
registered, dropped otherwise (406-408).  `workerStart`: the idle worker
pops the queue head and enters the user callback (563-570).  `workerEnd`:
the running callback returns. -/
inductive PStep (cat : Catalog) (cbSet : Bool) : PSys → PSys → Prop
  | recvSkip (s : PSys) (c : Cmd) (rest : List Cmd) :
      s.ackedPend = none → s.pending = c :: rest →
      find_path_for_id cat (resolve_signal_id cat c.msg.signal_id) = "" →
      PStep cat cbSet s { s with pending := rest }
  | recvAck (s : PSys) (c : Cmd) (rest : List Cmd) :
      s.ackedPend = none → s.pending = c :: rest →
      find_path_for_id cat (resolve_signal_id cat c.msg.signal_id) ≠ "" →
      PStep cat cbSet s
        { s with pending := rest, ackedPend := some c.idx,
                 trace := s.trace ++ [PEv.ack c.idx] }
  | recvEnq (s : PSys) (i : Nat) :
      s.ackedPend = some i → cbSet = true →
      PStep cat cbSet s { s with ackedPend := none, queue := s.queue ++ [i] }
  | recvDrop (s : PSys) (i : Nat) :
      s.ackedPend = some i → cbSet = false →
      PStep cat cbSet s { s with ackedPend := none }
  | workerStart (s : PSys) (i : Nat) (q : List Nat) :
      s.worker = none → s.queue = i :: q →
      PStep cat cbSet s
        { s with queue := q, worker := some i,
                 trace := s.trace ++ [PEv.cbStart i] }
  | workerEnd (s : PSys) (i : Nat) :
      s.worker = some i →
      PStep cat cbSet s { s with worker := none, trace := s.trace ++ [PEv.cbEnd i] }

/-- Initial state: the inbound commands numbered by arrival position,
empty queue, idle worker, empty trace. -/
def pInit (cmds : List ActuateRequestMsg) : PSys :=
  { pending := cmds.enum.map fun p => { idx := p.1, msg := p.2 },
    ackedPend := none, queue := [], worker := none, trace := [] }

/-- Reachability of a pipeline state from the initial state by interleaved
steps. -/
def PReach (cat : Catalog) (cbSet : Bool) (cmds : List ActuateRequestMsg)
    (s : PSys) : Prop :=
  Relation.ReflTransGen (PStep cat cbSet) (pInit cmds) s

end ActuatorProvider

/-- The arrival positions whose callbacks have started, in trace order. -/
def startIdx : PEv → Option Nat
  | PEv.cbStart i => some i
  | _ => none

/-- The sequence of callback starts recorded in a trace. -/
def startedSeq (tr : List PEv) : List Nat := tr.filterMap startIdx

theorem startedSeq_append (tr₁ tr₂ : List PEv) :
    startedSeq (tr₁ ++ tr₂) = startedSeq tr₁ ++ startedSeq tr₂ := by
  simp [startedSeq]

/-- Single-occupancy check of the worker over the callback events of a
trace: fold left carrying the currently running callback; `none` as a
result signals a violation (a start while busy, or an end that does not
match the running callback). -/
def cbFold : Option Nat → List PEv → Option (Option Nat)
  | st, [] => some st
  | st, PEv.ack _ :: rest => cbFold st rest
  | none, PEv.cbStart i :: rest => cbFold (some i) rest
  | some _, PEv.cbStart _ :: _ => none
  | none, PEv.cbEnd _ :: _ => none
  | some i, PEv.cbEnd j :: rest => if i = j then cbFold none rest else none

theorem cbFold_append (l₁ l₂ : List PEv) (st : Option Nat) :
    cbFold st (l₁ ++ l₂) = (cbFold st l₁).bind fun st' => cbFold st' l₂ := by
  induction l₁ generalizing st with
  | nil => simp [cbFold]
  | cons e rest ih =>
    cases e with
    | ack i => cases st <;> simp [cbFold, ih]
    | cbStart i => cases st <;> simp [cbFold, ih]
    | cbEnd j =>
      cases st with
      | none => simp [cbFold]
      | some i => by_cases h : i = j <;> simp [cbFold, h, ih]

/-- From the busy state, a successful fold ending idle must contain the
matching callback end. -/
theorem cbFold_busy_to_idle (l : List PEv) (i : Nat)
    (h : cbFold (some i) l = some none) : PEv.cbEnd i ∈ l := by
  induction l with
  | nil => simp [cbFold] at h
  | cons e rest ih =>
    cases e with
    | ack k =>
      simp only [cbFold] at h
      exact List.mem_cons_of_mem _ (ih h)
    | cbStart k => simp [cbFold] at h
    | cbEnd k =>
      by_cases hik : i = k
      · subst hik; exact List.mem_cons_self _ _
      · simp [cbFold, hik] at h

/-- In a trace accepted by the single-occupancy fold that ends idle, every
callback that started has ended. -/
theorem cbFold_all_ended (l : List PEv) (st : Option Nat)
    (h : cbFold st l = some none) (i : Nat) (hi : PEv.cbStart i ∈ l) :
    PEv.cbEnd i ∈ l := by
  induction l generalizing st with
  | nil => simp at hi
  | cons e rest ih =>
    cases e with
    | ack k =>
      simp only [cbFold] at h
      rcases List.mem_cons.mp hi with hh | hh
      · cases hh
      · exact List.mem_cons_of_mem _ (ih st h hh)
    | cbStart k =>
      cases st with
      | some m => simp [cbFold] at h
      | none =>
        simp only [cbFold] at h
        rcases List.mem_cons.mp hi with hh | hh
        · cases hh
          exact List.mem_cons_of_mem _ (cbFold_busy_to_idle rest i h)
        · exact List.mem_cons_of_mem _ (ih (some k) h hh)
    | cbEnd k =>
      cases st with
      | none => simp [cbFold] at h
      | some m =>
        by_cases hmk : m = k
        · subst hmk
          simp only [cbFold, if_pos rfl] at h
          rcases List.mem_cons.mp hi with hh | hh
          · cases hh
          · exact List.mem_cons_of_mem _ (ih none h hh)
        · simp [cbFold, hmk] at h

/-- Decomposition of a list extended by one element around a distinguished
occurrence. -/
theorem append_singleton_cases {α : Type} (l₁ t₁ t₂ : List α) (e x : α)
    (h : l₁ ++ [e] = t₁ ++ x :: t₂) :
    (t₂ = [] ∧ t₁ = l₁ ∧ x = e) ∨
      ∃ t₂', l₁ = t₁ ++ x :: t₂' ∧ t₂ = t₂' ++ [e] := by
  rcases List.eq_nil_or_concat t₂ with h2 | ⟨t₂', e', h2⟩
  · subst h2
    have := List.append_inj' h (by simp)
    refine Or.inl ⟨rfl, this.1.symm, ?_⟩
    have h2 := this.2
    simp at h2
    exact h2.symm
  · subst h2
    rw [List.concat_eq_append, ← List.cons_append, ← List.append_assoc] at h
    have := List.append_inj' h (by simp)
    have he : e = e' := by
      have h2 := this.2
      simp at h2
      exact h2
    exact Or.inr ⟨t₂', this.1, by rw [List.concat_eq_append, he]⟩

/-- Every callback start in the trace is preceded by the acknowledgement
of the same command. -/
def AckBeforeStart (tr : List PEv) : Prop :=
  ∀ t₁ i t₂, tr = t₁ ++ PEv.cbStart i :: t₂ → PEv.ack i ∈ t₁

theorem ackBeforeStart_append (tr : List PEv) (e : PEv)
    (h : AckBeforeStart tr) (he : ∀ i, e = PEv.cbStart i → PEv.ack i ∈ tr) :
    AckBeforeStart (tr ++ [e]) := by
  intro t₁ i t₂ heq
  rcases append_singleton_cases tr t₁ t₂ e (PEv.cbStart i) heq with
    ⟨_, ht, hx⟩ | ⟨t₂', h1, _⟩
  · subst ht; exact he i hx.symm
  · exact h t₁ i t₂' h1

/-- Inductive invariant of the actuation pipeline: queued and pending-ack
commands have their acknowledgement in the trace, every callback start is
preceded by its acknowledgement, the callback events respect the single
worker slot, identifiers flow monotonically pending → acked → queue →
started, and every known command is pending, awaiting enqueue, or already
acknowledged. -/
structure PInv (cat : Catalog) (cmds : List ActuateRequestMsg) (s : PSys) : Prop where
  queueAcked : ∀ i ∈ s.queue, PEv.ack i ∈ s.trace
  ackedAcked : ∀ i, s.ackedPend = some i → PEv.ack i ∈ s.trace
  ackOrder : AckBeforeStart s.trace
  cbWell : cbFold none s.trace = some s.worker
  queueSorted : s.queue.Pairwise (· < ·)
  startedBelowQueue : ∀ j ∈ startedSeq s.trace, ∀ i ∈ s.queue, j < i
  startedSorted : (startedSeq s.trace).Pairwise (· < ·)
  ackedAbove : ∀ a, s.ackedPend = some a →
    (∀ i ∈ s.queue, i < a) ∧ (∀ j ∈ startedSeq s.trace, j < a)
  pendingAbove : ∀ c ∈ s.pending,
    (∀ i ∈ s.queue, i < c.idx) ∧ (∀ j ∈ startedSeq s.trace, j < c.idx) ∧
    (∀ a, s.ackedPend = some a → a < c.idx)
  pendingSorted : (s.pending.map Cmd.idx).Pairwise (· < ·)
  processed : ∀ c ∈ (ActuatorProvider.pInit cmds).pending,
    ActuatorProvider.find_path_for_id cat
      (ActuatorProvider.resolve_signal_id cat c.msg.signal_id) ≠ "" →
    c ∈ s.pending ∨ s.ackedPend = some c.idx ∨ PEv.ack c.idx ∈ s.trace

theorem startedSeq_ack (i : Nat) : startedSeq [PEv.ack i] = [] := rfl

theorem startedSeq_cbStart (i : Nat) : startedSeq [PEv.cbStart i] = [i] := rfl

theorem startedSeq_cbEnd (i : Nat) : startedSeq [PEv.cbEnd i] = [] := rfl

theorem pInv_init (cat : Catalog) (cmds : List ActuateRequestMsg) :
    PInv cat cmds (ActuatorProvider.pInit cmds) := by
  refine ⟨?_, ?_, ?_, ?_, ?_, ?_, ?_, ?_, ?_, ?_, ?_⟩
  · intro i hi; simp [ActuatorProvider.pInit] at hi
  · intro i hi; simp [ActuatorProvider.pInit] at hi
  · intro t₁ i t₂ h
    exact absurd h (by simp [ActuatorProvider.pInit])
  · rfl
  · simp [ActuatorProvider.pInit]
  · intro j hj; simp [ActuatorProvider.pInit, startedSeq] at hj
  · simp [ActuatorProvider.pInit, startedSeq]
  · intro a ha; simp [ActuatorProvider.pInit] at ha
  · intro c hc
    refine ⟨?_, ?_, ?_⟩
    · intro i hi; simp [ActuatorProvider.pInit] at hi
    · intro j hj; simp [ActuatorProvider.pInit, startedSeq] at hj
    · intro a ha; simp [ActuatorProvider.pInit] at ha
  · simp only [ActuatorProvider.pInit, List.map_map]
    have : (Cmd.idx ∘ fun p : Nat × ActuateRequestMsg => ({ idx := p.1, msg := p.2 } : Cmd)) = Prod.fst := rfl
    rw [this, List.enum_map_fst]
    exact List.pairwise_lt_range cmds.length
  · intro c hc _
    exact Or.inl hc

theorem pInv_step (cat : Catalog) (cbSet : Bool) (cmds : List ActuateRequestMsg)
    (s s' : PSys) (hstep : ActuatorProvider.PStep cat cbSet s s')
    (hinv : PInv cat cmds s) : PInv cat cmds s' := by
  obtain ⟨qa, aa, ao, cw, qs, sbq, ss, aab, pab, ps, pr⟩ := hinv
  cases hstep with
  | recvSkip c rest h1 h2 h3 =>
    refine ⟨qa, aa, ao, cw, qs, sbq, ss, aab, ?_, ?_, ?_⟩
    · intro c' hc'
      exact pab c' (by rw [h2]; exact List.mem_cons_of_mem _ hc')
    · rw [h2, List.map_cons] at ps
      exact ps.of_cons
    · intro c0 h0 hk
      rcases pr c0 h0 hk with hp | hp | hp
      · rw [h2] at hp
        rcases List.mem_cons.mp hp with rfl | hp'
        · exact absurd h3 hk
        · exact Or.inl hp'
      · exact Or.inr (Or.inl hp)
      · exact Or.inr (Or.inr hp)
  | recvAck c rest h1 h2 h3 =>
    have hcmem : c ∈ s.pending := by rw [h2]; exact List.mem_cons_self _ _
    refine ⟨?_, ?_, ?_, ?_, qs, ?_, ?_, ?_, ?_, ?_, ?_⟩
    · intro i hi
      exact List.mem_append_left _ (qa i hi)
    · intro i hi
      cases hi
      exact List.mem_append_right _ (by simp)
    · exact ackBeforeStart_append _ _ ao (by intro i hi; simp at hi)
    · rw [cbFold_append, cw]
      simp [cbFold]
    · intro j hj i hi
      rw [startedSeq_append, startedSeq_ack, List.append_nil] at hj
      exact sbq j hj i hi
    · rw [startedSeq_append, startedSeq_ack, List.append_nil]
      exact ss
    · intro a ha
      cases ha
      refine ⟨(pab c hcmem).1, ?_⟩
      intro j hj
      rw [startedSeq_append, startedSeq_ack, List.append_nil] at hj
      exact (pab c hcmem).2.1 j hj
    · intro c' hc'
      have hmem : c' ∈ s.pending := by rw [h2]; exact List.mem_cons_of_mem _ hc'
      refine ⟨(pab c' hmem).1, ?_, ?_⟩
      · intro j hj
        rw [startedSeq_append, startedSeq_ack, List.append_nil] at hj
        exact (pab c' hmem).2.1 j hj
      · intro a ha
        cases ha
        rw [h2, List.map_cons] at ps
        exact (List.pairwise_cons.mp ps).1 c'.idx (List.mem_map_of_mem _ hc')
    · rw [h2, List.map_cons] at ps
      exact ps.of_cons
    · intro c0 h0 hk
      rcases pr c0 h0 hk with hp | hp | hp
      · rw [h2] at hp
        rcases List.mem_cons.mp hp with rfl | hp'
        · exact Or.inr (Or.inl rfl)
        · exact Or.inl hp'
      · rw [h1] at hp
        simp at hp
      · exact Or.inr (Or.inr (List.mem_append_left _ hp))
  | recvEnq i h1 h2 =>
    refine ⟨?_, ?_, ao, cw, ?_, ?_, ss, ?_, ?_, ps, ?_⟩
    · intro j hj
      rcases List.mem_append.mp hj with hj' | hj'
      · exact qa j hj'
      · rw [List.mem_singleton] at hj'
        subst hj'
        exact aa j h1
    · intro j hj
      simp at hj
    · rw [List.pairwise_append]
      refine ⟨qs, by simp, ?_⟩
      intro a ha b hb
      rw [List.mem_singleton] at hb
      subst hb
      exact (aab b h1).1 a ha
    · intro j hj k hk
      rcases List.mem_append.mp hk with hk' | hk'
      · exact sbq j hj k hk'
      · rw [List.mem_singleton] at hk'
        subst hk'
        exact (aab k h1).2 j hj
    · intro a ha
      simp at ha
    · intro c' hc'
      obtain ⟨oq, os, oa⟩ := pab c' hc'
      refine ⟨?_, os, ?_⟩
      · intro k hk
        rcases List.mem_append.mp hk with hk' | hk'
        · exact oq k hk'
        · rw [List.mem_singleton] at hk'
          subst hk'
          exact oa k h1
      · intro a ha
        simp at ha
    · intro c0 h0 hk
      rcases pr c0 h0 hk with hp | hp | hp
      · exact Or.inl hp
      · rw [h1] at hp
        injection hp with hii
        exact Or.inr (Or.inr (hii ▸ aa i h1))
      · exact Or.inr (Or.inr hp)
  | recvDrop i h1 h2 =>
    refine ⟨qa, ?_, ao, cw, qs, sbq, ss, ?_, ?_, ps, ?_⟩
    · intro j hj
      simp at hj
    · intro a ha
      simp at ha
    · intro c' hc'
      obtain ⟨oq, os, oa⟩ := pab c' hc'
      exact ⟨oq, os, by intro a ha; simp at ha⟩
    · intro c0 h0 hk
      rcases pr c0 h0 hk with hp | hp | hp
      · exact Or.inl hp
      · rw [h1] at hp
        injection hp with hii
        exact Or.inr (Or.inr (hii ▸ aa i h1))
      · exact Or.inr (Or.inr hp)
  | workerStart i q h1 h2 =>
    have himem : i ∈ s.queue := by rw [h2]; exact List.mem_cons_self _ _
    refine ⟨?_, ?_, ?_, ?_, ?_, ?_, ?_, ?_, ?_, ps, ?_⟩
    · intro j hj
      exact List.mem_append_left _ (qa j (by rw [h2]; exact List.mem_cons_of_mem _ hj))
    · intro j hj
      exact List.mem_append_left _ (aa j hj)
    · refine ackBeforeStart_append _ _ ao ?_
      intro j hj
      cases hj
      exact qa i himem
    · rw [cbFold_append, cw, h1]
      simp [cbFold]
    · rw [h2] at qs
      exact qs.of_cons
    · intro j hj k hk
      rw [startedSeq_append, startedSeq_cbStart] at hj
      rcases List.mem_append.mp hj with hj' | hj'
      · exact sbq j hj' k (by rw [h2]; exact List.mem_cons_of_mem _ hk)
      · rw [List.mem_singleton] at hj'
        subst hj'
        rw [h2] at qs
        exact (List.pairwise_cons.mp qs).1 k hk
    · rw [startedSeq_append, startedSeq_cbStart, List.pairwise_append]
      refine ⟨ss, by simp, ?_⟩
      intro a ha b hb
      rw [List.mem_singleton] at hb
      subst hb
      exact sbq a ha _ himem
    · intro a ha
      obtain ⟨oq, os⟩ := aab a ha
      refine ⟨?_, ?_⟩
      · intro k hk
        exact oq k (by rw [h2]; exact List.mem_cons_of_mem _ hk)
      · intro j hj
        rw [startedSeq_append, startedSeq_cbStart] at hj
        rcases List.mem_append.mp hj with hj' | hj'
        · exact os j hj'
        · rw [List.mem_singleton] at hj'
          subst hj'
          exact oq _ himem
    · intro c' hc'
      obtain ⟨oq, os, oa⟩ := pab c' hc'
      refine ⟨?_, ?_, oa⟩
      · intro k hk
        exact oq k (by rw [h2]; exact List.mem_cons_of_mem _ hk)
      · intro j hj
        rw [startedSeq_append, startedSeq_cbStart] at hj
        rcases List.mem_append.mp hj with hj' | hj'
        · exact os j hj'
        · rw [List.mem_singleton] at hj'
          subst hj'
          exact oq _ himem
    · intro c0 h0 hk
      rcases pr c0 h0 hk with hp | hp | hp
      · exact Or.inl hp
      · exact Or.inr (Or.inl hp)
      · exact Or.inr (Or.inr (List.mem_append_left _ hp))
  | workerEnd i h1 =>
    refine ⟨?_, ?_, ?_, ?_, qs, ?_, ?_, ?_, ?_, ps, ?_⟩
    · intro j hj
      exact List.mem_append_left _ (qa j hj)
    · intro j hj
      exact List.mem_append_left _ (aa j hj)
    · exact ackBeforeStart_append _ _ ao (by intro j hj; simp at hj)
    · rw [cbFold_append, cw, h1]
      simp [cbFold]
    · intro j hj k hk
      rw [startedSeq_append, startedSeq_cbEnd, List.append_nil] at hj
      exact sbq j hj k hk
    · rw [startedSeq_append, startedSeq_cbEnd, List.append_nil]
      exact ss
    · intro a ha
      obtain ⟨oq, os⟩ := aab a ha
      refine ⟨oq, ?_⟩
      intro j hj
      rw [startedSeq_append, startedSeq_cbEnd, List.append_nil] at hj
      exact os j hj
    · intro c' hc'
      obtain ⟨oq, os, oa⟩ := pab c' hc'
      refine ⟨oq, ?_, oa⟩
      intro j hj
      rw [startedSeq_append, startedSeq_cbEnd, List.append_nil] at hj
      exact os j hj
    · intro c0 h0 hkn
      rcases pr c0 h0 hkn with hp | hp | hp
      · exact Or.inl hp
      · exact Or.inr (Or.inl hp)
      · exact Or.inr (Or.inr (List.mem_append_left _ hp))

/-- Every reachable state of the actuation pipeline satisfies the
invariant. -/
theorem pReach_inv (cat : Catalog) (cbSet : Bool) (cmds : List ActuateRequestMsg)
    (s : PSys) (h : ActuatorProvider.PReach cat cbSet cmds s) : PInv cat cmds s := by
  have h' : Relation.ReflTransGen (ActuatorProvider.PStep cat cbSet)
      (ActuatorProvider.pInit cmds) s := h
  clear h
  induction h' with
  | refl => exact pInv_init cat cmds
  | tail hr hstep ih => exact pInv_step cat cbSet cmds _ _ hstep ih

/-- C2: in every reachable interleaving of the receive thread and the
actuation worker, whenever the user callback for a command begins (its
`cbStart` event appears in the trace), the acknowledgement frame for that
command was already written to the stream earlier in the trace — for
however long any callback runs — and once the receive loop has drained the
batch, every command whose signal id is known to the provider has its
acknowledgement in the trace. -/
theorem ack_written_before_callback (cat : Catalog) (cbSet : Bool)
    (cmds : List ActuateRequestMsg) (s : PSys)
    (h : ActuatorProvider.PReach cat cbSet cmds s) :
    (∀ t₁ i t₂, s.trace = t₁ ++ PEv.cbStart i :: t₂ → PEv.ack i ∈ t₁) ∧
    (s.pending = [] → s.ackedPend = none →
      ∀ c ∈ (ActuatorProvider.pInit cmds).pending,
        ActuatorProvider.find_path_for_id cat
          (ActuatorProvider.resolve_signal_id cat c.msg.signal_id) ≠ "" →
        PEv.ack c.idx ∈ s.trace) := by
  have hinv := pReach_inv cat cbSet cmds s h
  refine ⟨hinv.ackOrder, ?_⟩
  intro hpend hacked c h0 hk
  rcases hinv.processed c h0 hk with hp | hp | hp
  · rw [hpend] at hp
    simp at hp
  · rw [hacked] at hp
    simp at hp
  · exact hp

/-- C4: in every reachable interleaving, the callbacks fire in strict
arrival order — the sequence of callback-start events is strictly
increasing in arrival position — and the single worker never overlaps two
callbacks: when the callback for a command begins, the callback of every
previously started command has already returned. -/
theorem callbacks_fifo_and_serial (cat : Catalog) (cbSet : Bool)
    (cmds : List ActuateRequestMsg) (s : PSys)
    (h : ActuatorProvider.PReach cat cbSet cmds s) :
    (startedSeq s.trace).Pairwise (· < ·) ∧
    (∀ t₁ j t₂, s.trace = t₁ ++ PEv.cbStart j :: t₂ →
      ∀ i, PEv.cbStart i ∈ t₁ → PEv.cbEnd i ∈ t₁) := by
  have hinv := pReach_inv cat cbSet cmds s h
  refine ⟨hinv.startedSorted, ?_⟩
  intro t₁ j t₂ heq i hi
  have hw : cbFold none (t₁ ++ PEv.cbStart j :: t₂) = some s.worker :=
    heq ▸ hinv.cbWell
  rw [cbFold_append] at hw
  cases hst : cbFold none t₁ with
  | none =>
    rw [hst] at hw
    simp at hw
  | some st =>
    rw [hst] at hw
    cases st with
    | some k => simp [cbFold] at hw
    | none => exact cbFold_all_ended t₁ none hst i hi

/-- Concrete two-command batch used to exercise the pipeline model. -/
def mW0 : ActuateRequestMsg :=
  { signal_id := { id := some 5, path := none }, value := ProtoValue.bool_ true }

/-- Second concrete command. -/
def mW1 : ActuateRequestMsg :=
  { signal_id := { id := some 6, path := none }, value := ProtoValue.int32 2 }

/-- Concrete catalog owning both signal ids. -/
def catW : Catalog :=
  { id_to_path := [(5, "Vehicle.A"), (6, "Vehicle.B")]
    path_to_id := [("Vehicle.A", 5), ("Vehicle.B", 6)] }

/-- Final state of a complete run of the two-command batch. -/
def sW : PSys :=
  { pending := [], ackedPend := none, queue := [], worker := none,
    trace := [PEv.ack 0, PEv.ack 1, PEv.cbStart 0, PEv.cbEnd 0,
              PEv.cbStart 1, PEv.cbEnd 1] }

theorem sW_reachable : ActuatorProvider.PReach catW true [mW0, mW1] sW := by
  have h1 : ActuatorProvider.PStep catW true
      (ActuatorProvider.pInit [mW0, mW1])
      { pending := [{ idx := 1, msg := mW1 }], ackedPend := some 0, queue := [],
        worker := none, trace := [PEv.ack 0] } :=
    ActuatorProvider.PStep.recvAck _ { idx := 0, msg := mW0 } [{ idx := 1, msg := mW1 }]
      rfl rfl (by decide)
  have h2 : ActuatorProvider.PStep catW true
      { pending := [{ idx := 1, msg := mW1 }], ackedPend := some 0, queue := [],
        worker := none, trace := [PEv.ack 0] }
      { pending := [{ idx := 1, msg := mW1 }], ackedPend := none, queue := [0],
        worker := none, trace := [PEv.ack 0] } :=
    ActuatorProvider.PStep.recvEnq _ 0 rfl rfl
  have h3 : ActuatorProvider.PStep catW true
      { pending := [{ idx := 1, msg := mW1 }], ackedPend := none, queue := [0],
        worker := none, trace := [PEv.ack 0] }
      { pending := [], ackedPend := some 1, queue := [0],
        worker := none, trace := [PEv.ack 0, PEv.ack 1] } :=
    ActuatorProvider.PStep.recvAck _ { idx := 1, msg := mW1 } [] rfl rfl (by decide)
  have h4 : ActuatorProvider.PStep catW true
      { pending := [], ackedPend := some 1, queue := [0],
        worker := none, trace := [PEv.ack 0, PEv.ack 1] }
      { pending := [], ackedPend := none, queue := [0, 1],
        worker := none, trace := [PEv.ack 0, PEv.ack 1] } :=
    ActuatorProvider.PStep.recvEnq _ 1 rfl rfl
  have h5 : ActuatorProvider.PStep catW true
      { pending := [], ackedPend := none, queue := [0, 1],
        worker := none, trace := [PEv.ack 0, PEv.ack 1] }
      { pending := [], ackedPend := none, queue := [1],
        worker := some 0, trace := [PEv.ack 0, PEv.ack 1, PEv.cbStart 0] } :=
    ActuatorProvider.PStep.workerStart _ 0 [1] rfl rfl
  have h6 : ActuatorProvider.PStep catW true
      { pending := [], ackedPend := none, queue := [1],
        worker := some 0, trace := [PEv.ack 0, PEv.ack 1, PEv.cbStart 0] }
      { pending := [], ackedPend := none, queue := [1], worker := none,
        trace := [PEv.ack 0, PEv.ack 1, PEv.cbStart 0, PEv.cbEnd 0] } :=
    ActuatorProvider.PStep.workerEnd _ 0 rfl
  have h7 : ActuatorProvider.PStep catW true
      { pending := [], ackedPend := none, queue := [1], worker := none,
        trace := [PEv.ack 0, PEv.ack 1, PEv.cbStart 0, PEv.cbEnd 0] }
      { pending := [], ackedPend := none, queue := [], worker := some 1,
        trace := [PEv.ack 0, PEv.ack 1, PEv.cbStart 0, PEv.cbEnd 0,
                  PEv.cbStart 1] } :=
    ActuatorProvider.PStep.workerStart _ 1 [] rfl rfl
  have h8 : ActuatorProvider.PStep catW true
      { pending := [], ackedPend := none, queue := [], worker := some 1,
        trace := [PEv.ack 0, PEv.ack 1, PEv.cbStart 0, PEv.cbEnd 0,
                  PEv.cbStart 1] }
      sW :=
    ActuatorProvider.PStep.workerEnd _ 1 rfl
  exact Relation.ReflTransGen.head h1 (Relation.ReflTransGen.head h2
    (Relation.ReflTransGen.head h3 (Relation.ReflTransGen.head h4
      (Relation.ReflTransGen.head h5 (Relation.ReflTransGen.head h6
        (Relation.ReflTransGen.head h7 (Relation.ReflTransGen.single h8)))))))

/-- C2 witness: in the complete run of the two-command batch, the
acknowledgement of command 1 appears in the trace prefix that precedes its
callback start, and both known commands are acknowledged. -/
theorem ack_written_before_callback_witness :
    PEv.ack 1 ∈ [PEv.ack 0, PEv.ack 1, PEv.cbStart 0, PEv.cbEnd 0] ∧
    PEv.ack 0 ∈ sW.trace := by
  have h := ack_written_before_callback catW true [mW0, mW1] sW sW_reachable
  refine ⟨h.1 [PEv.ack 0, PEv.ack 1, PEv.cbStart 0, PEv.cbEnd 0] 1 [PEv.cbEnd 1] rfl, ?_⟩
  exact h.2 rfl rfl { idx := 0, msg := mW0 } (by decide) (by decide)

/-- C4 witness: in the complete run of the two-command batch, the callback
starts occur in strict arrival order and command 0's callback has ended in
the trace prefix preceding command 1's callback start. -/
theorem callbacks_fifo_and_serial_witness :
    (startedSeq sW.trace).Pairwise (· < ·) ∧
    PEv.cbEnd 0 ∈ [PEv.ack 0, PEv.ack 1, PEv.cbStart 0, PEv.cbEnd 0] := by
  have h := callbacks_fifo_and_serial catW true [mW0, mW1] sW sW_reachable
  refine ⟨h.1, ?_⟩
  exact h.2 [PEv.ack 0, PEv.ack 1, PEv.cbStart 0, PEv.cbEnd 0] 1 [PEv.cbEnd 1] rfl 0
    (by decide)

/-! ## Interleaving model of the client subscription dispatcher (C8)

vss_client.cpp: `start_subscriptions` (115-140) takes `subscriptions_mutex_`
at entry, spawns the `subscribe_loop` thread, and then — still holding the
mutex — issues one synchronous `get` per registered path and invokes the
callback on each value obtained, releasing the mutex only on return.
`subscribe_loop` (217-244) builds one `Subscribe` request listing every
registered path, then dispatches each streamed (path, datapoint) entry via
`handle_update` (246-254), which must itself acquire
`subscriptions_mutex_` before invoking a callback, so no streamed callback
can run while `start_subscriptions` still holds the mutex. -/

/-- Observable callback events of the client: delivery of an initial value
obtained by the synchronous `get`, and delivery of a streamed update. -/
inductive CEv
  | initCb (p : String) (v : ProtoValue)
  | streamCb (p : String) (v : ProtoValue)
deriving DecidableEq

/-- Joint state of the `start_subscriptions` caller and the subscription
read thread: whether the caller still holds `subscriptions_mutex_`, the
registered paths whose initial value it has not yet processed, the
streamed entries not yet dispatched, and the callback trace. -/
structure CSys where
  lockHeldByMain : Bool
  mainRemaining : List String
  inbox : List (String × ProtoValue)
  trace : List CEv
deriving DecidableEq

namespace VSSClient

/-- The path list of the single `Subscribe` request built by
`subscribe_loop` (vss_client.cpp 221-226): one `add_signal_paths` per
registered subscription, in order. -/
def subscribe_request (subs : List String) : List String :=
  subs.foldl (fun acc p => acc ++ [p]) []

/-- One interleaved step of the client.  `deliverInit`/`deliverInitMiss`:
the caller, holding the mutex, gets the next registered path's value and
invokes its callback when the get succeeds (vss_client.cpp 133-139).
`mainRelease`: the caller returns, releasing the mutex.  `dispatch`/
`dispatchUnknown`: the read thread acquires the mutex — possible only when
the caller no longer holds it — and invokes the callback of a registered
path for the next streamed entry, or skips an unregistered path
(vss_client.cpp 246-254). -/
inductive CStep (subs : List String) (getVal : String → Option ProtoValue) :
    CSys → CSys → Prop
  | deliverInit (s : CSys) (p : String) (rest : List String) (v : ProtoValue) :
      s.lockHeldByMain = true → s.mainRemaining = p :: rest → getVal p = some v →
      CStep subs getVal s
        { s with mainRemaining := rest, trace := s.trace ++ [CEv.initCb p v] }
  | deliverInitMiss (s : CSys) (p : String) (rest : List String) :
      s.lockHeldByMain = true → s.mainRemaining = p :: rest → getVal p = none →
      CStep subs getVal s { s with mainRemaining := rest }
  | mainRelease (s : CSys) :
      s.lockHeldByMain = true → s.mainRemaining = [] →
      CStep subs getVal s { s with lockHeldByMain := false }
  | dispatch (s : CSys) (p : String) (v : ProtoValue)
      (rest : List (String × ProtoValue)) :
      s.lockHeldByMain = false → s.inbox = (p, v) :: rest →
      subs.contains p = true →
      CStep subs getVal s
        { s with inbox := rest, trace := s.trace ++ [CEv.streamCb p v] }
  | dispatchUnknown (s : CSys) (p : String) (v : ProtoValue)
      (rest : List (String × ProtoValue)) :
      s.lockHeldByMain = false → s.inbox = (p, v) :: rest →
      subs.contains p = false →
      CStep subs getVal s { s with inbox := rest }

/-- Initial state: the caller of `start_subscriptions` holds the mutex
(taken at function entry, before the read thread is spawned), no initial
value processed yet, no callback invoked yet. -/
def cInit (subs : List String) (inbox : List (String × ProtoValue)) : CSys :=
  { lockHeldByMain := true, mainRemaining := subs, inbox := inbox, trace := [] }

/-- Reachability of a client state by interleaved steps. -/
def CReach (subs : List String) (getVal : String → Option ProtoValue)
    (inbox : List (String × ProtoValue)) (s : CSys) : Prop :=
  Relation.ReflTransGen (CStep subs getVal) (cInit subs inbox) s

end VSSClient

theorem subscribe_request_eq (subs : List String) :
    VSSClient.subscribe_request subs = subs := by
  have hgen : ∀ (l acc : List String),
      l.foldl (fun a p => a ++ [p]) acc = acc ++ l := by
    intro l
    induction l with
    | nil => intro acc; simp
    | cons x xs ih => intro acc; simp [List.foldl_cons, ih]
  simpa using hgen subs []

/-- Inductive invariant of the client dispatcher: the mutex is released
only after every registered path has been processed, processed paths with
a successful get have their initial callback in the trace, and every
streamed callback in the trace is preceded by all initial callbacks. -/
structure CInv (subs : List String) (getVal : String → Option ProtoValue)
    (s : CSys) : Prop where
  releasedDone : s.lockHeldByMain = false → s.mainRemaining = []
  delivered : ∀ q ∈ subs, q ∉ s.mainRemaining →
    ∀ w, getVal q = some w → CEv.initCb q w ∈ s.trace
  streamAfterInit : ∀ t₁ p v t₂, s.trace = t₁ ++ CEv.streamCb p v :: t₂ →
    ∀ q ∈ subs, ∀ w, getVal q = some w → CEv.initCb q w ∈ t₁

theorem cInv_init (subs : List String) (getVal : String → Option ProtoValue)
    (inbox : List (String × ProtoValue)) :
    CInv subs getVal (VSSClient.cInit subs inbox) := by
  refine ⟨?_, ?_, ?_⟩
  · intro hl
    simp [VSSClient.cInit] at hl
  · intro q hq hnq w hw
    exact absurd hq hnq
  · intro t₁ p v t₂ h
    exact absurd h (by simp [VSSClient.cInit])

theorem cInv_step (subs : List String) (getVal : String → Option ProtoValue)
    (s s' : CSys) (hstep : VSSClient.CStep subs getVal s s')
    (hinv : CInv subs getVal s) : CInv subs getVal s' := by
  obtain ⟨rd, dl, sai⟩ := hinv
  cases hstep with
  | deliverInit p rest v h1 h2 h3 =>
    refine ⟨?_, ?_, ?_⟩
    · intro hl
      simp at hl
      rw [h1] at hl
      cases hl
    · intro q hq hnq w hw
      by_cases hqrem : q ∈ s.mainRemaining
      · rw [h2] at hqrem
        rcases List.mem_cons.mp hqrem with rfl | hq'
        · rw [h3] at hw
          injection hw with hw'
          exact List.mem_append_right _ (by rw [hw']; simp)
        · exact absurd hq' hnq
      · exact List.mem_append_left _ (dl q hq hqrem w hw)
    · intro t₁ p' v' t₂ heq q hq w hw
      rcases append_singleton_cases s.trace t₁ t₂ (CEv.initCb p v)
          (CEv.streamCb p' v') heq with ⟨_, _, hx⟩ | ⟨t₂', h', _⟩
      · simp at hx
      · exact sai t₁ p' v' t₂' h' q hq w hw
  | deliverInitMiss p rest h1 h2 h3 =>
    refine ⟨?_, ?_, sai⟩
    · intro hl
      simp at hl
      rw [h1] at hl
      cases hl
    · intro q hq hnq w hw
      by_cases hqrem : q ∈ s.mainRemaining
      · rw [h2] at hqrem
        rcases List.mem_cons.mp hqrem with rfl | hq'
        · rw [h3] at hw
          cases hw
        · exact absurd hq' hnq
      · exact dl q hq hqrem w hw
  | mainRelease h1 h2 =>
    refine ⟨?_, ?_, sai⟩
    · intro _
      exact h2
    · intro q hq hnq w hw
      exact dl q hq hnq w hw
  | dispatch p v rest h1 h2 h3 =>
    refine ⟨?_, ?_, ?_⟩
    · intro _
      exact rd h1
    · intro q hq hnq w hw
      exact List.mem_append_left _ (dl q hq hnq w hw)
    · intro t₁ p' v' t₂ heq q hq w hw
      rcases append_singleton_cases s.trace t₁ t₂ (CEv.streamCb p v)
          (CEv.streamCb p' v') heq with ⟨_, ht, _⟩ | ⟨t₂', h', _⟩
      · subst ht
        have hnq : q ∉ s.mainRemaining := by
          rw [rd h1]
          simp
        exact dl q hq hnq w hw
      · exact sai t₁ p' v' t₂' h' q hq w hw
  | dispatchUnknown p v rest h1 h2 h3 =>
    exact ⟨fun _ => rd h1, dl, sai⟩

/-- Every reachable client state satisfies the invariant. -/
theorem cReach_inv (subs : List String) (getVal : String → Option ProtoValue)
    (inbox : List (String × ProtoValue)) (s : CSys)
    (h : VSSClient.CReach subs getVal inbox s) : CInv subs getVal s := by
  have h' : Relation.ReflTransGen (VSSClient.CStep subs getVal)
      (VSSClient.cInit subs inbox) s := h
  clear h
  induction h' with
  | refl => exact cInv_init subs getVal inbox
  | tail hr hstep ih => exact cInv_step subs getVal _ _ hstep ih

/-- C8: the subscription read thread opens one multiplexed stream whose
request lists exactly the registered paths, and in every reachable
interleaving of `start_subscriptions` and the read thread, before any
streamed-update callback for any path is invoked, every registered path
whose synchronous `get` succeeds has had its initial value delivered to
its callback: the mutex held by `start_subscriptions` across the
initial-value loop excludes `handle_update` until all initial deliveries
are done. -/
theorem initial_values_before_stream_callbacks (subs : List String)
    (getVal : String → Option ProtoValue) (inbox : List (String × ProtoValue))
    (s : CSys) (h : VSSClient.CReach subs getVal inbox s) :
    VSSClient.subscribe_request subs = subs ∧
    (∀ t₁ p v t₂, s.trace = t₁ ++ CEv.streamCb p v :: t₂ →
      ∀ q ∈ subs, ∀ w, getVal q = some w → CEv.initCb q w ∈ t₁) :=
  ⟨subscribe_request_eq subs, (cReach_inv subs getVal inbox s h).streamAfterInit⟩

/-- Broker answers of the synchronous `get` in the concrete client run:
path `Vehicle.A` has a value, path `Vehicle.B` does not. -/
def getValW : String → Option ProtoValue :=
  fun p => if p = "Vehicle.A" then some (ProtoValue.int32 1) else none

/-- Final state of the concrete client run: both initial gets processed
(one succeeded), mutex released, one streamed update dispatched. -/
def sCW : CSys :=
  { lockHeldByMain := false, mainRemaining := [], inbox := [],
    trace := [CEv.initCb "Vehicle.A" (ProtoValue.int32 1),
              CEv.streamCb "Vehicle.A" (ProtoValue.bool_ true)] }

theorem sCW_reachable :
    VSSClient.CReach ["Vehicle.A", "Vehicle.B"] getValW
      [("Vehicle.A", ProtoValue.bool_ true)] sCW := by
  have h1 : VSSClient.CStep ["Vehicle.A", "Vehicle.B"] getValW
      (VSSClient.cInit ["Vehicle.A", "Vehicle.B"]
        [("Vehicle.A", ProtoValue.bool_ true)])
      { lockHeldByMain := true, mainRemaining := ["Vehicle.B"],
        inbox := [("Vehicle.A", ProtoValue.bool_ true)],
        trace := [CEv.initCb "Vehicle.A" (ProtoValue.int32 1)] } :=
    VSSClient.CStep.deliverInit _ "Vehicle.A" ["Vehicle.B"] (ProtoValue.int32 1)
      rfl rfl rfl
  have h2 : VSSClient.CStep ["Vehicle.A", "Vehicle.B"] getValW
      { lockHeldByMain := true, mainRemaining := ["Vehicle.B"],
        inbox := [("Vehicle.A", ProtoValue.bool_ true)],
        trace := [CEv.initCb "Vehicle.A" (ProtoValue.int32 1)] }
      { lockHeldByMain := true, mainRemaining := [],
        inbox := [("Vehicle.A", ProtoValue.bool_ true)],
        trace := [CEv.initCb "Vehicle.A" (ProtoValue.int32 1)] } :=
    VSSClient.CStep.deliverInitMiss _ "Vehicle.B" [] rfl rfl rfl
  have h3 : VSSClient.CStep ["Vehicle.A", "Vehicle.B"] getValW
      { lockHeldByMain := true, mainRemaining := [],
        inbox := [("Vehicle.A", ProtoValue.bool_ true)],
        trace := [CEv.initCb "Vehicle.A" (ProtoValue.int32 1)] }
      { lockHeldByMain := false, mainRemaining := [],
        inbox := [("Vehicle.A", ProtoValue.bool_ true)],
        trace := [CEv.initCb "Vehicle.A" (ProtoValue.int32 1)] } :=
    VSSClient.CStep.mainRelease _ rfl rfl
  have h4 : VSSClient.CStep ["Vehicle.A", "Vehicle.B"] getValW
      { lockHeldByMain := false, mainRemaining := [],
        inbox := [("Vehicle.A", ProtoValue.bool_ true)],
        trace := [CEv.initCb "Vehicle.A" (ProtoValue.int32 1)] }
      sCW :=
    VSSClient.CStep.dispatch _ "Vehicle.A" (ProtoValue.bool_ true) [] rfl rfl
      (by decide)
  exact Relation.ReflTransGen.head h1 (Relation.ReflTransGen.head h2
    (Relation.ReflTransGen.head h3 (Relation.ReflTransGen.single h4)))

/-- C8 witness: in the concrete client run, the single subscription
request lists both registered paths, and the initial-value callback of
`Vehicle.A` lies in the trace prefix preceding the streamed-update
callback. -/
theorem initial_values_before_stream_callbacks_witness :
    VSSClient.subscribe_request ["Vehicle.A", "Vehicle.B"] =
      ["Vehicle.A", "Vehicle.B"] ∧
    CEv.initCb "Vehicle.A" (ProtoValue.int32 1) ∈
      [CEv.initCb "Vehicle.A" (ProtoValue.int32 1)] := by
  have h := initial_values_before_stream_callbacks ["Vehicle.A", "Vehicle.B"]
    getValW [("Vehicle.A", ProtoValue.bool_ true)] sCW sCW_reachable
  refine ⟨h.1, ?_⟩
  exact h.2 [CEv.initCb "Vehicle.A" (ProtoValue.int32 1)] "Vehicle.A"
    (ProtoValue.bool_ true) [] rfl "Vehicle.A" (by decide)
    (ProtoValue.int32 1) rfl
